import Mathlib

/-!
Verification of the wifitomqtt repository (attomqtt.c / wifitomqtt.c) against
its natural-language specification.  Each section shallowly embeds the C code
it is about: global mutable state becomes explicit state records, the serial
device and the MQTT broker become lists of emitted events, and the handlers
become pure functions on those.
-/

namespace Wifitomqtt

/-! ## Change publisher (attomqtt.c, `mypublish_change`)

`mypublish_change(topic, str, retain, pcache)` publishes `str` only when it
differs from the cached value `*pcache`, a NULL cache and a NULL/empty string
comparing equal (`strcmp(*pcache ?: "", str ?: "")`).  On publish the cache
becomes `strdup(str)` when `str` is non-NULL and non-empty, `NULL` otherwise.
We model a C string pointer as `Option String` (`none` = NULL). -/

/-- `s ?: ""`: the string a possibly-NULL C string compares as. -/
def normv (v : Option String) : String := v.getD ""

/-- One call of `mypublish_change` on one topic's cache: returns the new cache
and whether a broker publish was emitted (attomqtt.c lines 387-401). -/
def mypublish_change (cache v : Option String) : Option String × Bool :=
  if normv cache ≠ normv v then
    ((match v with
      | some s => if s = "" then none else some s
      | none => none), true)
  else
    (cache, false)

/-- Number of broker publishes produced by feeding the value sequence `vs`
through `mypublish_change` starting from cache `cache`. -/
def runPub (cache : Option String) : List (Option String) → Nat
  | [] => 0
  | v :: vs =>
    let r := mypublish_change cache v
    (cond r.2 1 0) + runPub r.1 vs

/-- Number of value changes along `vs` relative to a preceding value `prev`
(NULL and empty string identified). -/
def countChanges (prev : String) : List (Option String) → Nat
  | [] => 0
  | v :: vs => (if normv v ≠ prev then 1 else 0) + countChanges (normv v) vs

/-- Modelled from the spec: "the number of distinct consecutive values in the
sequence" (null and empty string considered equal) — the number of maximal
runs of equal values. -/
def claimedDistinctConsecutive : List (Option String) → Nat
  | [] => 0
  | v :: vs => 1 + countChanges (normv v) vs

lemma normv_mypublish_change_fst (cache v : Option String) :
    normv (mypublish_change cache v).1 = normv v := by
  unfold mypublish_change
  by_cases h : normv cache ≠ normv v
  · simp only [if_pos h]
    cases v with
    | none => rfl
    | some s =>
      by_cases hs : s = ""
      · simp [normv, hs]
      · simp [normv, hs]
  · simp only [if_neg h]
    push_neg at h
    exact h

/-- C2 (amended): the number of broker publishes equals the number of values
that differ (NULL/empty identified) from their predecessor, the predecessor of
the first value being the cached value at the start of the sequence. -/
theorem publish_economy (cache : Option String) (vs : List (Option String)) :
    runPub cache vs = countChanges (normv cache) vs := by
  induction vs generalizing cache with
  | nil => rfl
  | cons v vs ih =>
    show (cond (mypublish_change cache v).2 1 0) + runPub (mypublish_change cache v).1 vs
        = (if normv v ≠ normv cache then 1 else 0) + countChanges (normv v) vs
    rw [ih, normv_mypublish_change_fst]
    by_cases h : normv cache ≠ normv v
    · simp [mypublish_change, h, Ne.symm h]
    · push_neg at h
      have he : mypublish_change cache v = (cache, false) := by
        unfold mypublish_change
        rw [if_neg (by simp [h])]
      rw [he]
      simp [h]

/-- C2 counterexample: one single call with an empty string, starting from the
initial (NULL) cache, produces no broker publish, while the sequence has one
distinct consecutive value.  The claimed equality fails as stated. -/
theorem publish_economy_counterexample :
    runPub none [some ""] = 0 ∧ claimedDistinctConsecutive [some ""] = 1 := by
  constructor <;> rfl

/-! ## AT command queue (attomqtt.c: `add_strq`/`pop_strq`, `at_write`,
`at_next_cmd`, `at_timeout` and the terminator branch of `at_recvd`)

The queue `strq` is a FIFO of command strings.  `at_write` appends and, when
the queue was empty, immediately writes the head to the device
(`if (!strq->next)`, lines 863-871).  A completed response group
(terminator seen in `at_recvd`, lines 768-801) resets the consecutive-timeout
counter, pops the head and writes the next head; `at_timeout` (lines 371-384)
submits `"<cmd>: timeout"` to the `fail` change-publisher, pops the head,
increments the consecutive-timeout counter, dies when it exceeds 5, and
otherwise writes the next head.  Queue entries are identified by the sequence
number in which they were enqueued; the device writes and the head pops form
the event trace, fail-topic publishes are collected on a separate channel.
Device writes are modelled as succeeding (the EAGAIN retry path rewrites the
same head and does not reorder anything). -/

/-- Device/queue events: `write n` = command `n` written to the device,
`pop n` = command `n`'s response group (or timeout) consumed and head popped. -/
inductive QEv : Type
  | write (n : Nat)
  | pop (n : Nat)
  deriving Repr, DecidableEq

/-- State of the AT command queue engine: the queue (entries tagged with
their enqueue sequence number), the next sequence number, the
`nsubsequenttimeouts` counter, the `saved_fail` cache and whether
`mylog(LOG_ERR, ...)` has terminated the process. -/
structure AtQState : Type where
  q : List (Nat × String)
  nextIdx : Nat
  nTimeouts : Nat
  savedFail : Option String
  fatal : Bool
  deriving Repr, DecidableEq

/-- Initial state of attomqtt's queue engine. -/
def atInit : AtQState := ⟨[], 0, 0, none, false⟩

/-- The three queue-relevant events of the event loop: `at_write` of a new
command, arrival of a response terminator, expiry of the command timeout. -/
inductive AtAct : Type
  | enq (s : String)
  | response
  | timeout
  deriving Repr, DecidableEq

/-- `at_next_cmd`: write the head of the (remaining) queue, if any. -/
def nextWrite : List (Nat × String) → List QEv
  | [] => []
  | (m, _) :: _ => [QEv.write m]

/-- One step of the queue engine.  Returns the new state, the device/queue
events and the values published to the `fail` topic.  A dead (`fatal`)
process does nothing. -/
def atStep (st : AtQState) (a : AtAct) : AtQState × List QEv × List String :=
  if st.fatal then (st, [], []) else
  match a with
  | AtAct.enq s =>
    match st.q with
    | [] =>
      ({ st with q := [(st.nextIdx, s)], nextIdx := st.nextIdx + 1 },
       [QEv.write st.nextIdx], [])
    | _ :: _ =>
      ({ st with q := st.q ++ [(st.nextIdx, s)], nextIdx := st.nextIdx + 1 },
       [], [])
  | AtAct.response =>
    match st.q with
    | [] => (st, [], [])
    | (n, _) :: rest =>
      ({ st with q := rest, nTimeouts := 0 },
       QEv.pop n :: nextWrite rest, [])
  | AtAct.timeout =>
    match st.q with
    | [] => (st, [], [])
    | (n, c) :: rest =>
      let v := c ++ ": timeout"
      let r := mypublish_change st.savedFail (some v)
      let fatal2 := decide (st.nTimeouts + 1 > 5)
      ({ st with q := rest, nTimeouts := st.nTimeouts + 1,
                 savedFail := r.1, fatal := fatal2 },
       QEv.pop n :: (if fatal2 then [] else nextWrite rest),
       if r.2 then [v] else [])

/-- Run the queue engine from the initial state, accumulating the trace. -/
def runAt (acts : List AtAct) : AtQState × List QEv × List String :=
  acts.foldl
    (fun acc a =>
      let r := atStep acc.1 a
      (r.1, acc.2.1 ++ r.2.1, acc.2.2 ++ r.2.2))
    (atInit, [], [])

/-- The strictly alternating trace `write 0, pop 0, ..., write (p-1), pop (p-1)`. -/
def canonCore : Nat → List QEv
  | 0 => []
  | p + 1 => canonCore p ++ [QEv.write p, QEv.pop p]

/-- `canonCore p` optionally followed by the write of command `p`. -/
def canon (p : Nat) (b : Bool) : List QEv :=
  canonCore p ++ (if b then [QEv.write p] else [])

lemma canonCore_length (p : Nat) : (canonCore p).length = 2 * p := by
  induction p with
  | zero => rfl
  | succ p ih => simp [canonCore, ih]; omega

lemma canonCore_get?_pop {p n i : Nat}
    (h : (canonCore p).get? n = some (QEv.pop i)) : n = 2 * i + 1 ∧ i < p := by
  induction p generalizing n with
  | zero => simp [canonCore] at h
  | succ p ih =>
    rw [canonCore] at h
    by_cases hn : n < (canonCore p).length
    · rw [List.get?_append hn] at h
      have := ih h
      omega
    · push_neg at hn
      rw [List.get?_append_right hn] at h
      rw [canonCore_length] at hn h
      rcases Nat.lt_trichotomy (n - 2 * p) 1 with h1 | h1 | h1
      · interval_cases hnn : (n - 2 * p)
        simp at h
      · rw [h1] at h
        simp at h
        omega
      · have : (n - 2 * p) ≥ 2 := h1
        rw [List.get?_eq_none.2 (by simp; omega)] at h
        exact absurd h (by simp)

lemma canonCore_get?_write {p n j : Nat}
    (h : (canonCore p).get? n = some (QEv.write j)) : n = 2 * j ∧ j < p := by
  induction p generalizing n with
  | zero => simp [canonCore] at h
  | succ p ih =>
    rw [canonCore] at h
    by_cases hn : n < (canonCore p).length
    · rw [List.get?_append hn] at h
      have := ih h
      omega
    · push_neg at hn
      rw [List.get?_append_right hn] at h
      rw [canonCore_length] at hn h
      rcases Nat.lt_trichotomy (n - 2 * p) 1 with h1 | h1 | h1
      · interval_cases hnn : (n - 2 * p)
        simp at h
        omega
      · rw [h1] at h
        simp at h
      · have : (n - 2 * p) ≥ 2 := h1
        rw [List.get?_eq_none.2 (by simp; omega)] at h
        exact absurd h (by simp)

lemma canon_get?_pop {p n i : Nat} {b : Bool}
    (h : (canon p b).get? n = some (QEv.pop i)) : n = 2 * i + 1 := by
  rw [canon] at h
  by_cases hn : n < (canonCore p).length
  · rw [List.get?_append hn] at h
    exact (canonCore_get?_pop h).1
  · push_neg at hn
    rw [List.get?_append_right hn] at h
    cases b with
    | false => simp at h
    | true =>
      rcases Nat.lt_or_ge (n - (canonCore p).length) 1 with h1 | h1
      · interval_cases hnn : (n - (canonCore p).length)
        simp at h
      · rw [List.get?_eq_none.2 (by simp; omega)] at h
        exact absurd h (by simp)

lemma canon_get?_write {p n j : Nat} {b : Bool}
    (h : (canon p b).get? n = some (QEv.write j)) : n = 2 * j := by
  rw [canon] at h
  by_cases hn : n < (canonCore p).length
  · rw [List.get?_append hn] at h
    exact (canonCore_get?_write h).1
  · push_neg at hn
    rw [List.get?_append_right hn] at h
    cases b with
    | false => simp at h
    | true =>
      rcases Nat.lt_or_ge (n - (canonCore p).length) 1 with h1 | h1
      · have h0 : n - (canonCore p).length = 0 := by omega
        rw [h0] at h
        simp at h
        have := canonCore_length p
        omega
      · rw [List.get?_eq_none.2 (by simp; omega)] at h
        exact absurd h (by simp)

/-- Invariant tying the engine state to the emitted device/queue trace:
`p` commands have been fully consumed, the trace is the strict alternation
`write 0, pop 0, …, write (p-1), pop (p-1)` (plus the write of command `p`
when the head is written), and the queue holds the consecutively numbered
commands `p, p+1, …`. -/
def AtInv (st : AtQState) (tr : List QEv) : Prop :=
  ∃ p b, tr = canon p b
    ∧ st.q.map Prod.fst = List.range' p st.q.length
    ∧ st.nextIdx = p + st.q.length
    ∧ (b = true → st.q ≠ [])
    ∧ (st.fatal = false → st.q ≠ [] → b = true)

lemma canon_false_write (p : Nat) :
    canon p false ++ [QEv.write p] = canon p true := by
  simp [canon]

lemma canon_true_pop (p : Nat) :
    canon p true ++ [QEv.pop p] = canon (p + 1) false := by
  simp [canon, canonCore]

lemma canon_true_pop_write (p : Nat) :
    canon p true ++ [QEv.pop p, QEv.write (p + 1)] = canon (p + 1) true := by
  simp [canon, canonCore]

lemma atStep_inv {st : AtQState} {tr : List QEv} (a : AtAct)
    (h : AtInv st tr) : AtInv (atStep st a).1 (tr ++ (atStep st a).2.1) := by
  obtain ⟨p, b, htr, hmap, hnext, hb, hf⟩ := h
  by_cases hfat : st.fatal
  · simp only [atStep, hfat, if_pos]
    exact ⟨p, b, by simpa using htr, hmap, hnext, hb, hf⟩
  · rw [Bool.not_eq_true] at hfat
    cases a with
    | enq s =>
      cases hq : st.q with
      | nil =>
        have hb0 : b = false := by
          cases b with
          | false => rfl
          | true => exact absurd hq (hb rfl)
        subst hb0
        rw [hq] at hmap hnext
        simp at hnext
        refine ⟨p, true, ?_, ?_, ?_, fun _ => by simp [atStep, hfat, hq], fun _ _ => rfl⟩
        · simp [atStep, hfat, hq, htr, hnext, canon_false_write]
        · simp [atStep, hfat, hq, hnext]
        · simp [atStep, hfat, hq, hnext]
      | cons hd tl =>
        have hb1 : b = true := hf hfat (by simp [hq])
        subst hb1
        refine ⟨p, true, ?_, ?_, ?_, fun _ => ?_, fun _ _ => rfl⟩
        · simp [atStep, hfat, hq, htr]
        · simp only [atStep, hfat, Bool.false_eq_true, if_neg, ite_false, hq]
          simp only [← hq]
          rw [List.map_append, hmap, hnext]
          simp [List.range'_1_concat]
        · simp only [atStep, hfat, Bool.false_eq_true, ite_false, hq]
          simp only [← hq]
          simp [hnext]
          omega
        · simp [atStep, hfat, hq]
    | response =>
      cases hq : st.q with
      | nil =>
        have hred : atStep st AtAct.response = (st, [], []) := by
          simp [atStep, hfat, hq]
        rw [hred]
        exact ⟨p, b, by simpa using htr, hmap, hnext, hb, hf⟩
      | cons hd tl =>
        obtain ⟨n, c⟩ := hd
        rw [hq] at hmap hnext
        rw [List.length_cons, List.range'_succ, List.map_cons] at hmap
        have hn : n = p := (List.cons.injEq _ _ _ _ ▸ hmap).1
        have htl : tl.map Prod.fst = List.range' (p + 1) tl.length :=
          (List.cons.injEq _ _ _ _ ▸ hmap).2
        have hb1 : b = true := hf hfat (by simp [hq])
        subst hb1
        rw [hn] at hq hnext
        cases htl2 : tl with
        | nil =>
          subst htl2
          refine ⟨p + 1, false, ?_, ?_, ?_, by simp, ?_⟩
          · simp [atStep, hfat, hq, htr, nextWrite, canon_true_pop]
          · simp [atStep, hfat, hq]
          · simp only [atStep, hfat, Bool.false_eq_true, ite_false, hq]
            simp at hnext ⊢
            omega
          · simp [atStep, hfat, hq]
        | cons hd2 tl2 =>
          obtain ⟨m, d⟩ := hd2
          have hm : m = p + 1 := by
            rw [htl2] at htl
            rw [List.length_cons, List.range'_succ, List.map_cons] at htl
            exact (List.cons.injEq _ _ _ _ ▸ htl).1
          rw [hm] at htl2
          subst htl2
          refine ⟨p + 1, true, ?_, ?_, ?_, by simp [atStep, hfat, hq], fun _ _ => rfl⟩
          · simp [atStep, hfat, hq, htr, nextWrite, canon_true_pop_write]
          · simp only [atStep, hfat, Bool.false_eq_true, ite_false, hq]
            simpa using htl
          · simp only [atStep, hfat, Bool.false_eq_true, ite_false, hq]
            simp at hnext ⊢
            omega
    | timeout =>
      cases hq : st.q with
      | nil =>
        have hred : atStep st AtAct.timeout = (st, [], []) := by
          simp [atStep, hfat, hq]
        rw [hred]
        exact ⟨p, b, by simpa using htr, hmap, hnext, hb, hf⟩
      | cons hd tl =>
        obtain ⟨n, c⟩ := hd
        rw [hq] at hmap hnext
        rw [List.length_cons, List.range'_succ, List.map_cons] at hmap
        have hn : n = p := (List.cons.injEq _ _ _ _ ▸ hmap).1
        have htl : tl.map Prod.fst = List.range' (p + 1) tl.length :=
          (List.cons.injEq _ _ _ _ ▸ hmap).2
        have hb1 : b = true := hf hfat (by simp [hq])
        subst hb1
        rw [hn] at hq hnext
        by_cases hfat2 : st.nTimeouts + 1 > 5
        · refine ⟨p + 1, false, ?_, ?_, ?_, by simp, ?_⟩
          · simp [atStep, hfat, hq, htr, hfat2, canon_true_pop]
          · simpa [atStep, hfat, hq, hfat2] using htl
          · simp only [atStep, hfat, Bool.false_eq_true, ite_false, hq]
            simp at hnext ⊢
            omega
          · simp [atStep, hfat, hq, hfat2]
        · cases htl2 : tl with
          | nil =>
            subst htl2
            refine ⟨p + 1, false, ?_, ?_, ?_, by simp, ?_⟩
            · simp [atStep, hfat, hq, htr, hfat2, nextWrite, canon_true_pop]
            · simp [atStep, hfat, hq]
            · simp only [atStep, hfat, Bool.false_eq_true, ite_false, hq]
              simp at hnext ⊢
              omega
            · simp [atStep, hfat, hq, hfat2]
          | cons hd2 tl2 =>
            obtain ⟨m, d⟩ := hd2
            have hm : m = p + 1 := by
              rw [htl2] at htl
              rw [List.length_cons, List.range'_succ, List.map_cons] at htl
              exact (List.cons.injEq _ _ _ _ ▸ htl).1
            rw [hm] at htl2
            subst htl2
            refine ⟨p + 1, true, ?_, ?_, ?_,
              by simp [atStep, hfat, hq, hfat2], fun _ _ => rfl⟩
            · simp [atStep, hfat, hq, htr, hfat2, nextWrite, canon_true_pop_write]
            · simp only [atStep, hfat, Bool.false_eq_true, ite_false, hq]
              simpa using htl
            · simp only [atStep, hfat, Bool.false_eq_true, ite_false, hq]
              simp at hnext ⊢
              omega

/-- The folding step of `runAt`, named for the proofs. -/
def runAtF (acc : AtQState × List QEv × List String) (a : AtAct) :
    AtQState × List QEv × List String :=
  let r := atStep acc.1 a
  (r.1, acc.2.1 ++ r.2.1, acc.2.2 ++ r.2.2)

lemma runAt_eq_foldl (acts : List AtAct) :
    runAt acts = acts.foldl runAtF (atInit, [], []) := rfl

lemma runAt_inv (acts : List AtAct) :
    AtInv (runAt acts).1 (runAt acts).2.1 := by
  rw [runAt_eq_foldl]
  have hinit : AtInv atInit [] :=
    ⟨0, false, rfl, rfl, rfl, by simp, by simp [atInit]⟩
  generalize hacc : (atInit, ([] : List QEv), ([] : List String)) = acc at hinit ⊢
  rw [show ([] : List QEv) = acc.2.1 from by rw [← hacc]] at hinit
  rw [show atInit = acc.1 from by rw [← hacc]] at hinit
  clear hacc
  induction acts generalizing acc with
  | nil => exact hinit
  | cons a acts ih =>
    rw [List.foldl_cons]
    exact ih _ (atStep_inv a hinit)

/-- C1: Queue monotonicity.  For any two commands `i` enqueued before `j`
(`i < j` in enqueue order), in the trace produced by any sequence of
enqueue/response/timeout events, the device write of `j` never precedes the
consumption (response-completion or timeout pop) of `i`: wherever
`pop i` and `write j` occur in the trace, the pop comes first.
Equivalently, enqueue writes immediately only when the queue was empty, and
the next command is written only after the current head is popped. -/
theorem queue_monotonicity (acts : List AtAct) {i j pi pj : Nat}
    (hpop : (runAt acts).2.1.get? pi = some (QEv.pop i))
    (hwr : (runAt acts).2.1.get? pj = some (QEv.write j))
    (hij : i < j) : pi < pj := by
  obtain ⟨p, b, htr, -⟩ := runAt_inv acts
  rw [htr] at hpop hwr
  have h1 := canon_get?_pop hpop
  have h2 := canon_get?_write hwr
  omega

/-- Witness for C1: enqueue `at`, complete its response, enqueue `ate0`;
the trace is `write 0, pop 0, write 1`, and the pop of command 0 (position 1)
precedes the write of command 1 (position 2). -/
theorem queue_monotonicity_witness :
    (runAt [AtAct.enq "at", AtAct.response, AtAct.enq "ate0"]).2.1.get? 1
        = some (QEv.pop 0)
    ∧ (runAt [AtAct.enq "at", AtAct.response, AtAct.enq "ate0"]).2.1.get? 2
        = some (QEv.write 1)
    ∧ 1 < 2 :=
  ⟨by decide, by decide,
   @queue_monotonicity [AtAct.enq "at", AtAct.response, AtAct.enq "ate0"]
     0 1 1 2 (by decide) (by decide) (by decide)⟩

/-- C3 counterexample: five consecutive timeouts do NOT terminate the process.
Enqueue five commands and let all five time out: the consecutive-timeout
counter reaches 5 but `nsubsequenttimeouts > 5` is false, so no fatal error
is raised (the process dies only on the sixth consecutive timeout). -/
theorem timeout_threshold_counterexample :
    (runAt ([AtAct.enq "at+csq", AtAct.enq "at+creg?", AtAct.enq "at+cgreg?",
             AtAct.enq "at+cops?", AtAct.enq "at+cpin?"]
            ++ List.replicate 5 AtAct.timeout)).1.nTimeouts = 5
    ∧ (runAt ([AtAct.enq "at+csq", AtAct.enq "at+creg?", AtAct.enq "at+cgreg?",
             AtAct.enq "at+cops?", AtAct.enq "at+cpin?"]
            ++ List.replicate 5 AtAct.timeout)).1.fatal = false := by
  constructor <;> decide

/-- C3 (amended): when the pending command `c` times out, the engine submits
`"<c>: timeout"` to the `fail`-topic change-publisher (the broker publish is
emitted whenever it differs from the cached `fail` value), pops the queue
head and advances to the next command; the process terminates with a fatal
error when the consecutive-timeout counter exceeds 5, i.e. on the sixth
consecutive timeout (not the fifth); and a completed response resets the
consecutive-timeout counter to zero. -/
theorem timeout_policy (st : AtQState) (n : Nat) (c : String)
    (rest : List (Nat × String))
    (hq : st.q = (n, c) :: rest) (hfat : st.fatal = false) :
    ((atStep st AtAct.timeout).1.q = rest)
    ∧ ((atStep st AtAct.timeout).1.savedFail = some (c ++ ": timeout"))
    ∧ ((atStep st AtAct.timeout).2.2 =
        if normv st.savedFail ≠ c ++ ": timeout" then [c ++ ": timeout"] else [])
    ∧ ((atStep st AtAct.timeout).1.nTimeouts = st.nTimeouts + 1)
    ∧ ((atStep st AtAct.timeout).1.fatal = decide (st.nTimeouts + 1 > 5))
    ∧ ((atStep st AtAct.timeout).2.1 =
        QEv.pop n :: (if st.nTimeouts + 1 > 5 then [] else nextWrite rest))
    ∧ ((atStep st AtAct.response).1.nTimeouts = 0) := by
  have hne : c ++ ": timeout" ≠ "" := by
    intro h
    have : (c ++ ": timeout").data = "".data := congrArg String.data h
    rw [String.data_append] at this
    simp at this
  refine ⟨?_, ?_, ?_, ?_, ?_, ?_, ?_⟩
  · simp [atStep, hfat, hq]
  · simp only [atStep, hfat, Bool.false_eq_true, ite_false, hq]
    unfold mypublish_change
    by_cases h : normv st.savedFail ≠ normv (some (c ++ ": timeout"))
    · simp only [if_pos h]
      simp [hne]
    · push_neg at h
      have hnn : ¬ (normv st.savedFail ≠ normv (some (c ++ ": timeout"))) :=
        fun hne => hne h
      simp only [if_neg hnn]
      cases hsf : st.savedFail with
      | none => rw [hsf] at h; exact absurd h.symm (by simpa [normv] using hne)
      | some s =>
        rw [hsf] at h
        simp only [normv, Option.getD] at h
        simp [h]
  · simp only [atStep, hfat, Bool.false_eq_true, ite_false, hq]
    unfold mypublish_change
    by_cases h : normv st.savedFail ≠ normv (some (c ++ ": timeout"))
    · simp only [if_pos h]
      simp only [normv, Option.getD] at h ⊢
      simp [h]
    · push_neg at h
      have hnn : ¬ (normv st.savedFail ≠ normv (some (c ++ ": timeout"))) :=
        fun hne => hne h
      simp only [if_neg hnn]
      simp only [normv, Option.getD] at h ⊢
      simp [h]
  · simp [atStep, hfat, hq]
  · simp [atStep, hfat, hq]
  · simp only [atStep, hfat, Bool.false_eq_true, ite_false, hq]
    by_cases h : st.nTimeouts + 1 > 5 <;> simp [h]
  · simp [atStep, hfat, hq]

/-- Witness for C3 (amended): a state with `nsubsequenttimeouts = 5` and one
pending command; its timeout publishes `at+csq: timeout`, pops the head and
raises the fatal error (sixth consecutive timeout). -/
theorem timeout_policy_witness :
    ((⟨[(0, "at+csq")], 1, 5, none, false⟩ : AtQState).q = [(0, "at+csq")])
    ∧ ((atStep ⟨[(0, "at+csq")], 1, 5, none, false⟩ AtAct.timeout).1.fatal
        = decide (5 + 1 > 5)) := by
  refine ⟨rfl, ?_⟩
  have h := timeout_policy ⟨[(0, "at+csq")], 1, 5, none, false⟩ 0 "at+csq" []
    rfl rfl
  exact h.2.2.2.2.1

/-! ## Operator table (attomqtt.c: `struct operator`, `add_operator`,
`opid_to_operator`, `imsi_to_operator`, lines 238-304)

The table is a singly linked list with newly added entries prepended.
`imsi_to_operator` walks the list and returns the first entry whose id is a
prefix of the query (`strncmp(imsi, op->id, op->idlen)`); `opid_to_operator`
is the same lookup applied to an operator id.  `add_operator` refuses to add
when `opid_to_operator(id)` finds an entry (duplicate avoidance), otherwise
prepends a new entry whose stored id is the given id truncated to the 8-byte
`id[8]` field (`strncpy` into the zero-initialised struct). -/

/-- An operator-table record. -/
structure Operator : Type where
  id : String
  name : String
  deriving Repr, DecidableEq

/-- `strncmp(query, op->id, op->idlen) == 0`: the stored id is a string
prefix of the query. -/
def idMatches (op : Operator) (query : String) : Bool :=
  op.id.data.isPrefixOf query.data

/-- `imsi_to_operator`: first entry (most recently added) whose id is a
prefix of the IMSI; NULL imsi resolves to NULL. -/
def imsi_to_operator (ops : List Operator) (imsi : Option String) : Option Operator :=
  match imsi with
  | none => none
  | some s => ops.find? (fun op => idMatches op s)

/-- `opid_to_operator` is literally the same lookup as for an IMSI. -/
def opid_to_operator (ops : List Operator) (id : String) : Option Operator :=
  imsi_to_operator ops (some id)

/-- `add_operator`: no-op when an existing entry's id is a prefix of the
given id; otherwise prepend, with the stored id truncated to 8 characters. -/
def add_operator (ops : List Operator) (id name : String) : List Operator :=
  match opid_to_operator ops id with
  | some _ => ops
  | none => ⟨⟨id.data.take 8⟩, name⟩ :: ops

/-- An operator table built by a sequence of `add_operator` calls (how every
reachable table arises: `+COPN` handling and `free_operators`). -/
def buildTable (adds : List (String × String)) : List Operator :=
  adds.foldl (fun ops a => add_operator ops a.1 a.2) []

/-- `find?` returns the first element satisfying the predicate: the list
splits at the found element with all earlier elements failing. -/
lemma find?_split {α : Type} {p : α → Bool} {l : List α} {x : α}
    (h : l.find? p = some x) :
    p x = true ∧ ∃ l1 l2, l = l1 ++ x :: l2 ∧ ∀ y ∈ l1, p y = false := by
  induction l with
  | nil => simp [List.find?] at h
  | cons a l ih =>
    by_cases hpa : p a
    · rw [List.find?_cons_of_pos _ hpa] at h
      cases h
      exact ⟨hpa, [], l, rfl, by simp⟩
    · rw [List.find?_cons_of_neg _ hpa] at h
      obtain ⟨hx, l1, l2, rfl, h1⟩ := ih h
      refine ⟨hx, a :: l1, l2, rfl, ?_⟩
      intro y hy
      rcases List.mem_cons.1 hy with rfl | hy
      · exact Bool.of_not_eq_true hpa
      · exact h1 y hy

/-- C5 counterexample: with the reachable table built by adding operator
`20601`/`B` and then `206`/`A`, the IMSI `206015551234` resolves to `A`
(the most recently added match) although `20601`, with the longer matching
prefix, names `B`: the lookup does not implement longest-prefix match. -/
theorem operator_resolution_counterexample :
    imsi_to_operator (buildTable [("20601", "B"), ("206", "A")])
        (some "206015551234") = some ⟨"206", "A"⟩
    ∧ (⟨"20601", "B"⟩ : Operator) ∈ buildTable [("20601", "B"), ("206", "A")]
    ∧ "20601".data.isPrefixOf "206015551234".data = true
    ∧ ("206" : String).length < ("20601" : String).length
    ∧ ("A" : String) ≠ "B" := by
  refine ⟨by decide, by decide, by decide, by decide, by decide⟩

/-- C5 (amended): the simop resolved from IMSI `I` is the name of the FIRST
entry in the operator table — i.e. the most recently added one, not
necessarily the one with the longest matching id — whose id is a prefix of
`I`, and it is absent precisely when no entry's id is a prefix of `I`. -/
theorem operator_resolution (ops : List Operator) (I : String) :
    (imsi_to_operator ops (some I) = none ↔ ∀ op ∈ ops, idMatches op I = false)
    ∧ (∀ op, imsi_to_operator ops (some I) = some op →
        idMatches op I = true
        ∧ ∃ pre post, ops = pre ++ op :: post
            ∧ ∀ q ∈ pre, idMatches q I = false) := by
  constructor
  · rw [show imsi_to_operator ops (some I) = ops.find? (fun op => idMatches op I) from rfl]
    rw [List.find?_eq_none]
    constructor
    · intro h op hop
      exact Bool.of_not_eq_true (h op hop)
    · intro h op hop
      simp [h op hop]
  · intro op hop
    exact find?_split hop

/-- Witness for C5 (amended), at the two-entry table of the counterexample:
`206`/`A` is the first match for `206015551234` and only non-matching
entries precede it. -/
theorem operator_resolution_witness :
    idMatches ⟨"206", "A"⟩ "206015551234" = true
    ∧ ∃ pre post,
        buildTable [("20601", "B"), ("206", "A")] = pre ++ (⟨"206", "A"⟩ : Operator) :: post
        ∧ ∀ q ∈ pre, idMatches q "206015551234" = false :=
  (operator_resolution (buildTable [("20601", "B"), ("206", "A")]) "206015551234").2
    ⟨"206", "A"⟩ (by decide)

lemma add_operator_pairwise {ops : List Operator} (id name : String)
    (h : ops.Pairwise (fun newer older => older.id.data.isPrefixOf newer.id.data = false)) :
    (add_operator ops id name).Pairwise
      (fun newer older => older.id.data.isPrefixOf newer.id.data = false) := by
  unfold add_operator
  cases hfind : opid_to_operator ops id with
  | some op => exact h
  | none =>
    rw [List.pairwise_cons]
    refine ⟨?_, h⟩
    intro op hop
    rw [show opid_to_operator ops id = ops.find? (fun op => idMatches op id) from rfl,
      List.find?_eq_none] at hfind
    have hno : idMatches op id = false := Bool.of_not_eq_true (hfind op hop)
    by_contra hc
    rw [Bool.not_eq_false] at hc
    have h1 : op.id.data <+: id.data.take 8 := (List.isPrefixOf_iff_prefix).1 hc
    have h2 : op.id.data <+: id.data := h1.trans (List.take_prefix 8 id.data)
    rw [idMatches, (List.isPrefixOf_iff_prefix).2 h2] at hno
    simp at hno

lemma buildTable_pairwise (adds : List (String × String)) :
    (buildTable adds).Pairwise
      (fun newer older => older.id.data.isPrefixOf newer.id.data = false) := by
  rw [buildTable]
  have h0 : ([] : List Operator).Pairwise
      (fun newer older => older.id.data.isPrefixOf newer.id.data = false) :=
    List.Pairwise.nil
  generalize ([] : List Operator) = ops at h0 ⊢
  induction adds generalizing ops with
  | nil => exact h0
  | cons a adds ih =>
    rw [List.foldl_cons]
    exact ih _ (add_operator_pairwise a.1 a.2 h0)

/-- C10: implicit operator-table invariant.  `add_operator(id, name)` leaves
the table unchanged whenever it already contains an entry whose id is a
prefix of the given id (duplicate detection reuses the IMSI prefix lookup);
consequently in every reachable table (built by `add_operator` calls from the
empty table) no entry's id is a prefix of a later-added entry's id; and a
lookup returns the most recently added entry whose id is a prefix of the
query — the first match in the list — not necessarily the longest one. -/
theorem operator_table_invariant (adds : List (String × String)) :
    (∀ id name op, op ∈ buildTable adds → idMatches op id = true →
        add_operator (buildTable adds) id name = buildTable adds)
    ∧ (buildTable adds).Pairwise
        (fun newer older => older.id.data.isPrefixOf newer.id.data = false)
    ∧ (∀ imsi op, imsi_to_operator (buildTable adds) (some imsi) = some op →
        idMatches op imsi = true
        ∧ ∃ pre post, buildTable adds = pre ++ op :: post
            ∧ ∀ q ∈ pre, idMatches q imsi = false) := by
  refine ⟨?_, buildTable_pairwise adds, ?_⟩
  · intro id name op hop hmatch
    unfold add_operator
    cases hfind : opid_to_operator (buildTable adds) id with
    | some q => rfl
    | none =>
      rw [show opid_to_operator (buildTable adds) id
            = (buildTable adds).find? (fun op => idMatches op id) from rfl,
        List.find?_eq_none] at hfind
      exact absurd hmatch (hfind op hop)
  · intro imsi op hop
    exact find?_split hop

/-- Witness for C10: in the reachable one-entry table for `206`/`A`, adding
`20601`/`B` is a no-op because `206` is a prefix of `20601`. -/
theorem operator_table_invariant_witness :
    add_operator (buildTable [("206", "A")]) "20601" "B" = buildTable [("206", "A")] :=
  (operator_table_invariant [("206", "A")]).1 "20601" "B" ⟨"206", "A"⟩
    (by decide) (by decide)

/-! ## Registration properties with source precedence (attomqtt.c:
`publish_received_property_pri` lines 431-446, the `+creg:`/`+cgreg:`
branches of `at_recvd_info` lines 498-528, `cregstr`, `ntstr`, `htod`)

`lac`, `cellid` and `nt` each carry a source priority (`pri_lac` etc.,
`PRI_CGREG=4 > PRI_CREG=3 > PRI_COPS=2`).  A non-empty value is accepted when
its priority is `>=` the recorded one (and records its priority); an empty
value clears the property only when it comes from the recorded priority
(resetting the priority to 0).  Numeric tokens are parsed with
`strtoul`/`strtol`; only the plain-decimal (and for `htod` plain-hex) forms
the modem emits are modelled. -/

/-- `cregstrs[]` (attomqtt.c lines 307-317). -/
def cregstrs : List String :=
  ["none", "registered", "searching", "denied", "unknown", "roaming",
   "sms only", "roaming sms only", "emergency"]

/-- `cregstr`: out-of-range states map to `unknown` (`cregstrs[4]`). -/
def cregstr (id : Int) : String :=
  if 0 ≤ id ∧ id < 9 then cregstrs.getD id.toNat "unknown" else "unknown"

/-- `ntstrs[]` (attomqtt.c lines 327-343). -/
def ntstrs : List String :=
  ["gprs", "gprs-c", "3g", "edge", "3g", "3g", "3g", "4g", "gprs", "4g",
   "4g", "5g", "eps", "5g", "5g"]

/-- `ntstr`: technology id to name; id 8 under the SIMCOM quirk is `cdma`;
out-of-range ids yield NULL. -/
def ntstr (simcom : Bool) (id : Int) : Option String :=
  if id = 8 ∧ simcom then some "cdma"
  else if 0 ≤ id ∧ id < 15 then some (ntstrs.getD id.toNat "") else none

/-- `strtoul(tok ?: "-1", NULL, 10)` cast to `int`: a missing token parses
as -1; otherwise the leading decimal digits (none giving 0). -/
def atoiTok : Option String → Int
  | none => -1
  | some s =>
    ((s.data.takeWhile Char.isDigit).foldl
      (fun acc c => 10 * acc + (c.toNat - '0'.toNat)) 0 : Nat)

def isHexDigitChar (c : Char) : Bool :=
  c.isDigit || ('a' ≤ c ∧ c ≤ 'f') || ('A' ≤ c ∧ c ≤ 'F')

def hexDigitVal (c : Char) : Nat :=
  if c.isDigit then c.toNat - '0'.toNat
  else if 'a' ≤ c ∧ c ≤ 'f' then c.toNat - 'a'.toNat + 10
  else c.toNat - 'A'.toNat + 10

/-- `htod`: hex string to decimal string; NULL in, or no leading hex digit,
gives NULL (attomqtt.c lines 416-429). -/
def htod (s : Option String) : Option String :=
  match s with
  | none => none
  | some str =>
    let ds := str.data.takeWhile isHexDigitChar
    if ds.isEmpty then none
    else some (toString (ds.foldl (fun acc c => 16 * acc + hexDigitVal c) 0))

/-- source priorities (attomqtt.c lines 189-191). -/
def PRI_CGREG : Nat := 4
def PRI_CREG : Nat := 3
def PRI_COPS : Nat := 2

/-- A cached property together with the priority of its current source. -/
structure PriProp : Type where
  val : Option String
  pri : Nat
  deriving Repr, DecidableEq

/-- `publish_received_property_pri` (attomqtt.c lines 431-446): empty values
clear the property only from the same priority (resetting it to 0); non-empty
values are accepted from a priority `>=` the recorded one.  Returns the new
cache/priority and whether a broker publish happened. -/
def publish_received_property_pri (v : Option String) (prio : Nat)
    (st : PriProp) : PriProp × Bool :=
  if normv v = "" then
    if st.pri = prio then
      let r := mypublish_change st.val v
      (⟨r.1, 0⟩, r.2)
    else (st, false)
  else
    if prio ≥ st.pri then
      let r := mypublish_change st.val v
      (⟨r.1, prio⟩, r.2)
    else (st, false)

/-- The registration-related caches touched by the `+cgreg:` branch. -/
structure RegState : Type where
  greg : Option String
  lac : PriProp
  cellid : PriProp
  nt : PriProp
  deriving Repr, DecidableEq

/-- Initial registration caches: everything unpublished, priority 0. -/
def regInit : RegState := ⟨none, ⟨none, 0⟩, ⟨none, 0⟩, ⟨none, 0⟩⟩

/-- The `+cgreg:` branch of `at_recvd_info` (attomqtt.c lines 518-528).
`toks` is the `strtok` comma-token list after `"+cgreg: "`; `skip` tells
whether the queue head is `at+cgreg?` (then the prepended `<n>` token is
skipped).  Publishes `greg` via the change publisher and `lac`/`cellid` at
`PRI_CGREG`; the `nt` field is recorded at `PRI_CREG` — exactly as the
source does on line 528. -/
def cgregHandler (simcom skip : Bool) (toks : List String) (st : RegState) :
    RegState × List (String × Option String) :=
  let toks2 := if skip then toks.drop 1 else toks
  let stat := atoiTok toks2.head?
  let rGreg := mypublish_change st.greg (some (cregstr stat))
  let rLac := publish_received_property_pri (htod toks2[1]?) PRI_CGREG st.lac
  let rCell := publish_received_property_pri (htod toks2[2]?) PRI_CGREG st.cellid
  let rNt := publish_received_property_pri (ntstr simcom (atoiTok toks2[3]?))
    PRI_CREG st.nt
  (⟨rGreg.1, rLac.1, rCell.1, rNt.1⟩,
   (if rGreg.2 then [("greg", some (cregstr stat))] else [])
   ++ (if rLac.2 then [("lac", htod toks2[1]?)] else [])
   ++ (if rCell.2 then [("cellid", htod toks2[2]?)] else [])
   ++ (if rNt.2 then [("nt", ntstr simcom (atoiTok toks2[3]?))] else []))

/-- C4: evaluation at the failing input.  Processing the `+CGREG:` fields
`5,ABCD,1234,7` from the initial state records `lac` and `cellid` at
`PRI_CGREG` but records the network technology `nt` (`4g`) at `PRI_CREG`,
not `PRI_CGREG` as the claim states; consequently a subsequent `+CREG` `nt`
update with a different value overwrites it, which recording at `PRI_CGREG`
would have blocked. -/
theorem cgreg_nt_priority :
    ((cgregHandler false false ["5", "ABCD", "1234", "7"] regInit).1.nt.val
        = some "4g")
    ∧ ((cgregHandler false false ["5", "ABCD", "1234", "7"] regInit).1.nt.pri
        = PRI_CREG)
    ∧ ((cgregHandler false false ["5", "ABCD", "1234", "7"] regInit).1.lac.pri
        = PRI_CGREG)
    ∧ ((cgregHandler false false ["5", "ABCD", "1234", "7"] regInit).1.lac.val
        = some "43981")
    ∧ ((cgregHandler false false ["5", "ABCD", "1234", "7"] regInit).1.cellid.pri
        = PRI_CGREG)
    ∧ PRI_CREG ≠ PRI_CGREG
    ∧ ((publish_received_property_pri (some "3g") PRI_CREG
          ⟨some "4g", PRI_CREG⟩).1.val = some "3g")
    ∧ ((publish_received_property_pri (some "3g") PRI_CREG
          ⟨some "4g", PRI_CGREG⟩).1.val = some "4g") := by
  refine ⟨by decide, by decide, by decide, by decide, by decide, by decide,
    by decide, by decide⟩

/-! ## Signal quality (attomqtt.c: the `+csq:` branch of `at_recvd_info`,
lines 530-557)

`saved_rssi` and `saved_ber` start at 99 ("no value"); a parsed value is
published only when it differs from the saved one.  rssi 99 publishes NULL,
anything else `-113 + 2*rssi` dBm; ber 0..6 publishes `ber_values[ber]`,
anything `>= 7` publishes NULL. -/

/-- `ber_values[]` (attomqtt.c lines 545-553). -/
def ber_values : List String :=
  ["<0.01%", "0.01% -- 0.1%", "0.1% -- 0.5%", "0.5% -- 1%", "1% -- 2%",
   "2% -- 4%", "4% -- 8%"]

/-- Initial `saved_rssi`/`saved_ber` (attomqtt.c line 161). -/
def saved_rssi_init : Nat := 99
def saved_ber_init : Nat := 99

/-- The `+csq:` branch: given the cached values and the parsed
`<rssi>,<ber>` pair, returns the new caches and the publishes emitted. -/
def csqHandler (savedRssi savedBer rssi ber : Nat) :
    (Nat × Nat) × List (String × Option String) :=
  ((rssi, ber),
   (if rssi ≠ savedRssi then
      [("rssi", if rssi = 99 then none
                else some (toString (-113 + 2 * (rssi : Int))))]
    else [])
   ++ (if ber ≠ savedBer then
      [("ber", if ber ≥ 7 then none else some (ber_values.getD ber ""))]
    else []))

/-- C9 counterexample: from the initial state (both caches 99), the response
`+CSQ: 99,99` publishes nothing at all — neither `rssi` nor `ber` is
published as absent, because neither value changed. -/
theorem csq_99_counterexample :
    (csqHandler saved_rssi_init saved_ber_init 99 99).2 = []
    ∧ ("rssi", (none : Option String))
        ∉ (csqHandler saved_rssi_init saved_ber_init 99 99).2
    ∧ ("ber", (none : Option String))
        ∉ (csqHandler saved_rssi_init saved_ber_init 99 99).2 := by
  refine ⟨by decide, by decide, by decide⟩

/-- Modelled from the spec: the BER percentage-bucket table ("BER buckets
(index to string): 0 .. 6; any other value gives absent"). -/
def berBucket (b : Nat) : Option String :=
  ["<0.01%", "0.01% -- 0.1%", "0.1% -- 0.5%", "0.5% -- 1%", "1% -- 2%",
   "2% -- 4%", "4% -- 8%"][b]?

lemma berBucket_eq (b : Nat) :
    (if b ≥ 7 then none else some (ber_values.getD b "")) = berBucket b := by
  rcases b with _ | _ | _ | _ | _ | _ | _ | n
  · rfl
  · rfl
  · rfl
  · rfl
  · rfl
  · rfl
  · rfl
  · have h7 : (n + 1 + 1 + 1 + 1 + 1 + 1 + 1 : Nat) ≥ 7 := by omega
    rw [if_pos h7]
    rfl

lemma csqHandler_pubs (sr sb r b : Nat) :
    (csqHandler sr sb r b).2 =
      (if r = sr then []
       else [("rssi", if r = 99 then none
                      else some (toString (-113 + 2 * (r : Int))))])
      ++ (if b = sb then [] else [("ber", berBucket b)]) := by
  show (if r ≠ sr then _ else []) ++ (if b ≠ sb then _ else []) = _
  congr 1
  · by_cases h : r = sr
    · rw [if_neg (fun hne => hne h), if_pos h]
    · rw [if_pos h, if_neg h]
  · by_cases h : b = sb
    · rw [if_neg (fun hne => hne h), if_pos h]
    · rw [if_pos h, if_neg h, berBucket_eq]

/-- C9 (amended): on a `+CSQ: <rssi>,<ber>` response the publishes are, for
each of the two values independently: nothing when the parsed value equals
the cached one; otherwise, for rssi, absent when rssi = 99 and the exact
integer `-113 + 2*rssi` for any other value, and, for ber, the
percentage-bucket string for ber 0..6 and absent for any other value.  In
particular `+CSQ: 99,99` publishes absent exactly for those of rssi/ber
whose cached value was not already 99 (at startup both caches are 99, so it
publishes nothing). -/
theorem csq_mapping (sr sb r b : Nat) :
    ((csqHandler sr sb r b).2 =
      (if r = sr then []
       else [("rssi", if r = 99 then none
                      else some (toString (-113 + 2 * (r : Int))))])
      ++ (if b = sb then [] else [("ber", berBucket b)]))
    ∧ ((csqHandler sr sb r b).1 = (r, b))
    ∧ ((csqHandler sr sb 99 99).2 =
      (if sr = 99 then [] else [("rssi", none)])
      ++ (if sb = 99 then [] else [("ber", none)])) := by
  refine ⟨csqHandler_pubs sr sb r b, rfl, ?_⟩
  rw [csqHandler_pubs]
  congr 1
  · by_cases h : sr = 99
    · subst h
      rw [if_pos rfl, if_pos rfl]
    · rw [if_neg (fun he => h he.symm), if_neg h, if_pos rfl]
  · by_cases h : sb = 99
    · subst h
      rw [if_pos rfl, if_pos rfl]
    · rw [if_neg (fun he => h he.symm), if_neg h]
      rfl

/-- Witness for C9 (amended): `+CSQ: 12,3` from the initial caches publishes
`rssi = -89` dBm and `ber = 0.5% -- 1%` (spec scenario S1), and a repeated
`+CSQ: 12,3` with both values already cached publishes nothing. -/
theorem csq_mapping_witness :
    ((csqHandler saved_rssi_init saved_ber_init 12 3).2 =
      [("rssi", some "-89"), ("ber", some "0.5% -- 1%")])
    ∧ ((csqHandler 12 3 12 3).2 = []) :=
  ⟨(csq_mapping saved_rssi_init saved_ber_init 12 3).1.trans (by decide),
   (csq_mapping 12 3 12 3).1.trans (by decide)⟩

/-! ## wpa networks (wifitomqtt.c: `struct network`, `is_mode_off`,
`set_wifi_state`, the `ADD_NETWORK` response branch of `wpa_recvd_pkt`)

A network record carries the wpa-assigned id (`-1` while the `ADD_NETWORK`
is in flight), the ssid, the `NF_SEL`/`NF_REMOVE` action flags, the
`BF_DISABLED` bit of `flags`, the configured mode, the creation sequence
number and the buffered key/value configuration pairs. -/

/-- A `struct network` record (wifitomqtt.c lines 171-184). -/
structure Network : Type where
  id : Int
  ssid : String
  sel : Bool
  removeFlag : Bool
  disabled : Bool
  mode : Int
  createseq : Nat
  cfgs : List (String × String)
  deriving Repr, DecidableEq

/-- The mode filter of `is_mode_off`: a network is considered when no mode is
selected (`selectedmode < 0`) or its mode equals the selected one
(`if (selectedmode >= 0 && net->mode != selectedmode) continue;`). -/
def matchesFilter (selectedmode : Int) (n : Network) : Bool :=
  !(selectedmode ≥ 0 && n.mode ≠ selectedmode)

/-- `is_mode_off` (wifitomqtt.c lines 383-398): true when at least one
network passes the mode filter and all passing networks are disabled
(`return nnet && ndis >= nnet`). -/
def is_mode_off (nets : List Network) (selectedmode : Int) : Bool :=
  let nnet := (nets.filter (matchesFilter selectedmode)).length
  let ndis := (nets.filter
    (fun n => matchesFilter selectedmode n && n.disabled)).length
  nnet ≠ 0 && ndis ≥ nnet

/-- `set_wifi_state` (wifitomqtt.c lines 399-419), restricted to the
`wifistate` topic: the published state becomes `off` when `is_mode_off`,
otherwise the passed state; equal values are not re-published (the cached
`pub_wifi_state` is returned unchanged).  The `speed`/`rssi` clearing of the
station branch does not touch the wifistate value and is omitted. -/
def set_wifi_state (nets : List Network) (selectedmode : Int)
    (pubState : Option String) (str : String) : Option String :=
  let str2 := if is_mode_off nets selectedmode then "off" else str
  if str2 = normv pubState then pubState else some str2


lemma filter_and_length_ge {l : List Network} {m d : Network → Bool} :
    ((l.filter (fun n => m n && d n)).length ≥ (l.filter m).length)
      ↔ ∀ n ∈ l, m n = true → d n = true := by
  induction l with
  | nil => simp
  | cons a l ih =>
    by_cases hm : m a
    · by_cases hd : d a
      · have e1 : (a :: l).filter m = a :: l.filter m := by
          simp [List.filter_cons, hm]
        have e2 : (a :: l).filter (fun n => m n && d n)
            = a :: l.filter (fun n => m n && d n) := by
          simp [List.filter_cons, hm, hd]
        rw [e1, e2, List.length_cons, List.length_cons]
        constructor
        · intro h n hn
          rcases List.mem_cons.1 hn with rfl | hn
          · intro _; exact hd
          · exact ih.1 (by omega) n hn
        · intro h
          have := ih.2 (fun n hn hmn => h n (List.mem_cons_of_mem a hn) hmn)
          omega
      · have hda : d a = false := Bool.of_not_eq_true hd
        have e1 : (a :: l).filter m = a :: l.filter m := by
          simp [List.filter_cons, hm]
        have e2 : (a :: l).filter (fun n => m n && d n)
            = l.filter (fun n => m n && d n) := by
          simp [List.filter_cons, hm, hda]
        rw [e1, e2, List.length_cons]
        have hle : (l.filter (fun n => m n && d n)).length
            ≤ (l.filter m).length := by
          have hff : (l.filter m).filter d = l.filter (fun n => m n && d n) := by
            rw [List.filter_filter]
            congr 1
            funext n
            exact Bool.and_comm _ _
          rw [← hff]
          exact List.length_filter_le _ _
        constructor
        · intro h
          omega
        · intro h
          exact absurd (h a (List.mem_cons_self a l) hm) (by simp [hda])
    · have hma : m a = false := Bool.of_not_eq_true hm
      have e1 : (a :: l).filter m = l.filter m := by
        simp [List.filter_cons, hma]
      have e2 : (a :: l).filter (fun n => m n && d n)
          = l.filter (fun n => m n && d n) := by
        simp [List.filter_cons, hma]
      rw [e1, e2]
      constructor
      · intro h n hn
        rcases List.mem_cons.1 hn with rfl | hn
        · intro hmn; exact absurd hmn (by simp [hma])
        · exact ih.1 h n hn
      · intro h
        exact ih.2 (fun n hn hmn => h n (List.mem_cons_of_mem a hn) hmn)

lemma is_mode_off_iff (nets : List Network) (selectedmode : Int) :
    is_mode_off nets selectedmode = true ↔
      (∃ n ∈ nets, matchesFilter selectedmode n = true)
      ∧ ∀ n ∈ nets, matchesFilter selectedmode n = true → n.disabled = true := by
  rw [is_mode_off]
  simp only [Bool.and_eq_true, decide_eq_true_eq]
  constructor
  · rintro ⟨h1, h2⟩
    refine ⟨?_, filter_and_length_ge.1 h2⟩
    rcases hh : nets.filter (matchesFilter selectedmode) with _ | ⟨n, l⟩
    · rw [hh] at h1
      simp at h1
    · have hn : n ∈ nets.filter (matchesFilter selectedmode) := by
        rw [hh]; exact List.mem_cons_self n l
      have := List.mem_filter.1 hn
      exact ⟨n, this.1, this.2⟩
  · rintro ⟨⟨n, hn, hmn⟩, h2⟩
    refine ⟨?_, filter_and_length_ge.2 h2⟩
    intro h0
    rw [List.length_eq_zero] at h0
    have hmem : n ∈ nets.filter (matchesFilter selectedmode) :=
      List.mem_filter.2 ⟨hn, hmn⟩
    rw [h0] at hmem
    exact absurd hmem (List.not_mem_nil n)

/-- C7 counterexample: with no network records at all (a reachable state:
fresh start, empty `LIST_NETWORKS`, then `STATUS` infers `none`), every
network matching the mode filter is vacuously disabled, yet the published
wifistate is `none`, not `off`: `is_mode_off` additionally requires at least
one matching network.  The claimed equivalence fails as stated. -/
theorem wifistate_aggregation_counterexample :
    set_wifi_state [] (-1) none "none" = some "none"
    ∧ (∀ n ∈ ([] : List Network), matchesFilter (-1) n = true → n.disabled = true)
    ∧ some "none" ≠ some "off" := by
  refine ⟨by decide, by simp, by decide⟩

/-- C7 (amended): whenever `set_wifi_state` runs with a real state
`str ∈ {station, AP, mesh, none}`, the published wifistate is `off` if and
only if at least one network matches the current mode filter and every
matching network has the disabled flag; otherwise it equals `str`. -/
theorem wifistate_aggregation (nets : List Network) (selectedmode : Int)
    (pubState : Option String) (str : String)
    (hstr : str = "station" ∨ str = "AP" ∨ str = "mesh" ∨ str = "none") :
    (set_wifi_state nets selectedmode pubState str = some "off" ↔
      ((∃ n ∈ nets, matchesFilter selectedmode n = true)
        ∧ ∀ n ∈ nets, matchesFilter selectedmode n = true → n.disabled = true))
    ∧ (is_mode_off nets selectedmode = false →
        set_wifi_state nets selectedmode pubState str = some str) := by
  have hres : set_wifi_state nets selectedmode pubState str
      = some (if is_mode_off nets selectedmode then "off" else str) := by
    rw [set_wifi_state]
    by_cases hoff : is_mode_off nets selectedmode
    · simp only [hoff, ite_true]
      by_cases he : "off" = normv pubState
      · rw [if_pos he]
        cases pubState with
        | none => exact absurd he (by decide)
        | some s =>
          simp only [normv, Option.getD] at he
          rw [he]
      · rw [if_neg he]
    · simp only [Bool.not_eq_true] at hoff
      simp only [hoff, Bool.false_eq_true, ite_false]
      by_cases he : str = normv pubState
      · rw [if_pos he]
        cases pubState with
        | none =>
          simp only [normv, Option.getD] at he
          rcases hstr with rfl | rfl | rfl | rfl <;> exact absurd he (by decide)
        | some s =>
          simp only [normv, Option.getD] at he
          rw [he]
      · rw [if_neg he]
    
  constructor
  · rw [hres]
    constructor
    · intro h
      by_cases hoff : is_mode_off nets selectedmode
      · exact (is_mode_off_iff nets selectedmode).1 hoff
      · simp only [Bool.not_eq_true] at hoff
        rw [hoff] at h
        simp only [Bool.false_eq_true, ite_false, Option.some.injEq] at h
        rcases hstr with rfl | rfl | rfl | rfl <;> exact absurd h (by decide)
    · intro h
      have hoff : is_mode_off nets selectedmode = true :=
        (is_mode_off_iff nets selectedmode).2 h
      rw [hoff]
      rfl
  · intro hoff
    rw [hres, hoff]
    rfl

/-- Witness for C7 (amended): one disabled station network, no mode filter:
the published wifistate is `off`, matching the nonvacuous all-disabled
condition. -/
theorem wifistate_aggregation_witness :
    set_wifi_state [⟨0, "home", false, false, true, 0, 0, []⟩] (-1) none "none"
        = some "off"
    ∧ is_mode_off [⟨0, "home", false, false, true, 0, 0, []⟩] (-1) = true := by
  constructor
  · apply ((wifistate_aggregation [⟨0, "home", false, false, true, 0, 0, []⟩]
      (-1) none "none" (Or.inr (Or.inr (Or.inr rfl)))).1).2
    constructor
    · exact ⟨⟨0, "home", false, false, true, 0, 0, []⟩, by decide, by decide⟩
    · intro n hn
      rcases List.mem_singleton.1 hn with rfl
      intro _
      rfl
  · decide

/-! ## ADD_NETWORK response (wifitomqtt.c: the `ADD_NETWORK` branch of
`wpa_recvd_pkt`, lines 971-1008, and `add_network_config` lines 553-570)

When the response to `ADD_NETWORK` carries the new id, the handler scans the
network table for id-less records (`lp->id != -1` skipped) keeping the one
with the strictly smallest `createseq` seen so far, assigns it the id, and
either removes it (`NF_REMOVE`) or flushes its buffered configuration:
`SET_NETWORK <id> ssid "<ssid>"`, each buffered pair in order, then
`SELECT_NETWORK` (`NF_SEL`) or `ENABLE_NETWORK` (when not `BF_DISABLED`).
The broker-side publishes of `network_changed`/`nets_enabled_changed` are
modelled separately (`set_wifi_state`); this model returns the updated table
and the commands sent to wpa_supplicant. -/

/-- The scan loop of the `ADD_NETWORK` branch: first id-less record with a
strictly smaller `createseq` than the best so far, carrying list indices. -/
def pickAux : List Network → Nat → Option (Nat × Network) → Option (Nat × Network)
  | [], _, best => best
  | n :: rest, i, none =>
    if n.id ≠ -1 then pickAux rest (i + 1) none
    else pickAux rest (i + 1) (some (i, n))
  | n :: rest, i, some b =>
    if n.id ≠ -1 then pickAux rest (i + 1) (some b)
    else if n.createseq < b.2.createseq then pickAux rest (i + 1) (some (i, n))
    else pickAux rest (i + 1) (some b)

/-- The commands emitted for the matched record (wifitomqtt.c lines 990-1007). -/
def addNetworkCmds (newid : Nat) (net : Network) : List String :=
  if net.removeFlag then ["REMOVE_NETWORK " ++ toString newid]
  else
    ("SET_NETWORK " ++ toString newid ++ " ssid \"" ++ net.ssid ++ "\"")
    :: (net.cfgs.map (fun kv =>
          "SET_NETWORK " ++ toString newid ++ " " ++ kv.1 ++ " " ++ kv.2)
      ++ (if net.sel then ["SELECT_NETWORK " ++ toString newid]
          else if net.disabled then []
          else ["ENABLE_NETWORK " ++ toString newid]))

/-- The `ADD_NETWORK` response handler: updated network table and emitted
wpa commands. -/
def addNetworkResponse (nets : List Network) (newid : Nat) :
    List Network × List String :=
  match pickAux nets 0 none with
  | none => (nets, [])
  | some (i, net) =>
    if net.removeFlag then
      (nets.eraseIdx i, addNetworkCmds newid net)
    else
      (nets.set i { net with id := (newid : Int), cfgs := [] },
       addNetworkCmds newid net)

lemma pickAux_keep (l : List Network) (k : Nat) (p : Nat × Network)
    (h : ∀ j m, l.get? j = some m → m.id = -1 → p.2.createseq < m.createseq) :
    pickAux l k (some p) = some p := by
  induction l generalizing k with
  | nil => rfl
  | cons a l ih =>
    rw [pickAux]
    by_cases ha : a.id ≠ -1
    · rw [if_pos ha]
      exact ih (k + 1) (fun j m hj => h (j + 1) m (by simpa using hj))
    · rw [if_neg ha]
      push_neg at ha
      have hlt : p.2.createseq < a.createseq := h 0 a rfl ha
      rw [if_neg (by omega)]
      exact ih (k + 1) (fun j m hj => h (j + 1) m (by simpa using hj))

lemma pickAux_min_acc (l : List Network) (k : Nat) (acc : Option (Nat × Network))
    (i : Nat) (net : Network)
    (hi : l.get? i = some net) (hpend : net.id = -1)
    (hmin : ∀ j m, l.get? j = some m → m.id = -1 → j ≠ i →
      net.createseq < m.createseq)
    (hacc : ∀ p, acc = some p → net.createseq < p.2.createseq) :
    pickAux l k acc = some (k + i, net) := by
  induction l generalizing k acc i with
  | nil => exact absurd hi (by simp)
  | cons a l ih =>
    cases i with
    | zero =>
      have ha : a = net := by simpa using hi
      subst ha
      have hrest : ∀ j m, l.get? j = some m → m.id = -1 →
          a.createseq < m.createseq :=
        fun j m hj hm => hmin (j + 1) m (by simpa using hj) hm (by omega)
      cases acc with
      | none =>
        rw [pickAux, if_neg (by simpa using hpend), Nat.add_zero]
        exact pickAux_keep l (k + 1) (k, a) hrest
      | some b =>
        have hb : a.createseq < b.2.createseq := hacc b rfl
        rw [pickAux, if_neg (by simpa using hpend), if_pos hb, Nat.add_zero]
        exact pickAux_keep l (k + 1) (k, a) hrest
    | succ i0 =>
      have hi0 : l.get? i0 = some net := by simpa using hi
      have hmin0 : ∀ j m, l.get? j = some m → m.id = -1 → j ≠ i0 →
          net.createseq < m.createseq :=
        fun j m hj hm hne => hmin (j + 1) m (by simpa using hj) hm (by omega)
      have hkk : k + (i0 + 1) = (k + 1) + i0 := by omega
      by_cases ha : a.id ≠ -1
      · cases acc with
        | none =>
          rw [pickAux, if_pos ha, hkk]
          exact ih (k + 1) none i0 hi0 hmin0 hacc
        | some b =>
          rw [pickAux, if_pos ha, hkk]
          exact ih (k + 1) (some b) i0 hi0 hmin0 hacc
      · push_neg at ha
        have hlt : net.createseq < a.createseq := hmin 0 a rfl ha (by omega)
        cases acc with
        | none =>
          rw [pickAux, if_neg (by simpa using ha), hkk]
          exact ih (k + 1) (some (k, a)) i0 hi0 hmin0
            (fun p hp => by cases hp; exact hlt)
        | some b =>
          by_cases hcmp : a.createseq < b.2.createseq
          · rw [pickAux, if_neg (by simpa using ha), if_pos hcmp, hkk]
            exact ih (k + 1) (some (k, a)) i0 hi0 hmin0
              (fun p hp => by cases hp; exact hlt)
          · rw [pickAux, if_neg (by simpa using ha), if_neg hcmp, hkk]
            exact ih (k + 1) (some b) i0 hi0 hmin0
              (fun p hp => by cases hp; exact hacc _ rfl)

/-- C6: buffered network creation.  When the `ADD_NETWORK` response yields id
`newid` and the id-less record `net` at position `i` has the strictly oldest
creation sequence among all id-less records, the handler matches exactly that
record and assigns it the id; if its remove flag was set before the id
arrived it issues `REMOVE_NETWORK <id>` and drops the record; otherwise it
emits `SET_NETWORK <id> ssid "<ssid>"`, then each buffered key/value pair in
insertion order, and finally `SELECT_NETWORK <id>` if selection was
requested, or `ENABLE_NETWORK <id>` when the record is not disabled (AP/mesh
records are created disabled, so they stay disabled unless explicitly
enabled), and clears the buffered pairs. -/
theorem add_network_buffered (nets : List Network) (newid : Nat)
    (i : Nat) (net : Network)
    (hi : nets.get? i = some net) (hpend : net.id = -1)
    (hmin : ∀ j m, nets.get? j = some m → m.id = -1 → j ≠ i →
      net.createseq < m.createseq) :
    addNetworkResponse nets newid =
      (if net.removeFlag then nets.eraseIdx i
       else nets.set i { net with id := (newid : Int), cfgs := [] },
       if net.removeFlag then ["REMOVE_NETWORK " ++ toString newid]
       else
         ("SET_NETWORK " ++ toString newid ++ " ssid \"" ++ net.ssid ++ "\"")
         :: (net.cfgs.map (fun kv =>
               "SET_NETWORK " ++ toString newid ++ " " ++ kv.1 ++ " " ++ kv.2)
           ++ (if net.sel then ["SELECT_NETWORK " ++ toString newid]
               else if net.disabled then []
               else ["ENABLE_NETWORK " ++ toString newid]))) := by
  have hpick : pickAux nets 0 none = some (i, net) := by
    have := pickAux_min_acc nets 0 none i net hi hpend hmin (fun p hp => by cases hp)
    simpa using this
  rw [addNetworkResponse, hpick]
  by_cases hrm : net.removeFlag = true
  · simp only [addNetworkCmds, if_pos hrm]
  · simp only [Bool.not_eq_true] at hrm
    simp only [addNetworkCmds, hrm, Bool.false_eq_true, ite_false]

/-- Witness for C6: table `[station id 3, pending "home" (seq 2, psk
buffered), pending "guest" (seq 5)]`; the `ADD_NETWORK` response `0` matches
the oldest pending record `home` and emits `SET_NETWORK 0 ssid "home"`,
`SET_NETWORK 0 psk "hunter2"`, `ENABLE_NETWORK 0` (spec scenario S4). -/
theorem add_network_buffered_witness :
    addNetworkResponse
      [⟨3, "work", false, false, false, 0, 0, []⟩,
       ⟨-1, "home", false, false, false, 0, 2, [("psk", "\"hunter2\"")]⟩,
       ⟨-1, "guest", false, false, false, 0, 5, []⟩] 0 =
      ([⟨3, "work", false, false, false, 0, 0, []⟩,
        ⟨0, "home", false, false, false, 0, 2, []⟩,
        ⟨-1, "guest", false, false, false, 0, 5, []⟩],
       ["SET_NETWORK 0 ssid \"home\"", "SET_NETWORK 0 psk \"hunter2\"",
        "ENABLE_NETWORK 0"]) := by
  have h := add_network_buffered
    [⟨3, "work", false, false, false, 0, 0, []⟩,
     ⟨-1, "home", false, false, false, 0, 2, [("psk", "\"hunter2\"")]⟩,
     ⟨-1, "guest", false, false, false, 0, 5, []⟩] 0 1
    ⟨-1, "home", false, false, false, 0, 2, [("psk", "\"hunter2\"")]⟩
    (by decide) (by decide) ?hmin
  · rw [h]
    decide
  case hmin =>
    intro j m hj hm hne
    rcases j with _ | _ | _ | j
    · cases hj
      exact absurd hm (by decide)
    · exact absurd rfl hne
    · cases hj
      decide
    · exact absurd hj (by simp)

/-! ## BSS table reconciliation (wifitomqtt.c: `struct bss`, `find_ap_by_bssid`,
`remove_ap`, `hide_ap_mqtt` lines 357-377, and the `SCAN_RESULTS` response
branch of `wpa_recvd_pkt` lines 772-802)

On a `SCAN_RESULTS` response the handler clears `BF_PRESENT` on every entry,
then for each listed line (skipping the `bssid` header) takes the first
tab-token as the BSSID, sends `BSS <bssid>` and re-marks an existing entry
present; finally every entry left unmarked is removed and its four bss
topics are cleared, and the table is re-sorted.  Listed BSSIDs that are not
yet in the table are only queried (`BSS <bssid>`), not inserted. -/

/-- A `struct bss` record; the `flags` bit mask becomes named booleans
(`BF_WPA/BF_WEP/BF_EAP/BF_KNOWN/BF_DISABLED/BF_PRESENT`). -/
structure Bss : Type where
  bssid : String
  ssid : Option String
  freq : Int
  level : Int
  wpa : Bool
  wep : Bool
  eap : Bool
  known : Bool
  disabled : Bool
  present : Bool
  deriving Repr, DecidableEq

/-- `bsss[j].flags &= ~BF_PRESENT` over the whole table. -/
def clearPresent (bsss : List Bss) : List Bss :=
  bsss.map (fun b => { b with present := false })

/-- `find_ap_by_bssid` + `bss->flags |= BF_PRESENT`: mark the (first, the
table being unique-keyed) entry with the given BSSID present. -/
def markPresent (key : String) : List Bss → List Bss
  | [] => []
  | b :: rest =>
    if b.bssid = key then { b with present := true } :: rest
    else b :: markPresent key rest

/-- `strtok(line, "\t")`: the first tab-separated token. -/
def firstTok (line : String) : String :=
  ⟨(line.data.dropWhile (fun c => c = '\t')).takeWhile (fun c => c ≠ '\t')⟩

/-- `mystrncmp("bssid", line)`: the header line of the listing. -/
def isHeaderLine (line : String) : Bool :=
  "bssid".data.isPrefixOf line.data

/-- The BSSIDs a `SCAN_RESULTS` payload lists (header lines skipped). -/
def listedKeys (lines : List String) : List String :=
  (lines.filter (fun l => !isHeaderLine l)).map firstTok

/-- The per-line loop: emit `BSS <bssid>` and mark the entry present. -/
def processScanLines (bsss : List Bss) : List String → List Bss × List String
  | [] => (bsss, [])
  | line :: rest =>
    if isHeaderLine line then processScanLines bsss rest
    else
      let key := firstTok line
      let r := processScanLines (markPresent key bsss) rest
      (r.1, ("BSS " ++ key) :: r.2)

/-- `hide_ap_mqtt`: clear the four bss topics of a BSSID. -/
def hideTopics (iface bssid : String) : List (String × String) :=
  [("net/" ++ iface ++ "/bss/" ++ bssid ++ "/freq", ""),
   ("net/" ++ iface ++ "/bss/" ++ bssid ++ "/level", ""),
   ("net/" ++ iface ++ "/bss/" ++ bssid ++ "/flags", ""),
   ("net/" ++ iface ++ "/bss/" ++ bssid ++ "/ssid", "")]

/-- The removal loop: keep present entries, drop the rest and clear their
topics (traversal order preserved, as in the source's in-place loop). -/
def sweepAbsent (iface : String) : List Bss → List Bss × List (String × String)
  | [] => ([], [])
  | b :: rest =>
    if b.present then
      let r := sweepAbsent iface rest
      (b :: r.1, r.2)
    else
      let r := sweepAbsent iface rest
      (r.1, hideTopics iface b.bssid ++ r.2)

/-- Insertion into a by-BSSID-sorted table (the effect of `qsort` with
`bssidcmp`). -/
def insertBss (b : Bss) : List Bss → List Bss
  | [] => [b]
  | c :: rest => if b.bssid ≤ c.bssid then b :: c :: rest else c :: insertBss b rest

/-- `sort_ap`: sort the table by BSSID. -/
def sort_ap (l : List Bss) : List Bss := l.foldr insertBss []

/-- The `SCAN_RESULTS` response branch: new table, wpa commands sent,
topic publishes emitted. -/
def scan_results (iface : String) (bsss : List Bss) (lines : List String) :
    List Bss × List String × List (String × String) :=
  let marked := processScanLines (clearPresent bsss) lines
  let swept := sweepAbsent iface marked.1
  (sort_ap swept.1, marked.2, swept.2)

lemma mem_insertBss {x b : Bss} {l : List Bss} :
    x ∈ insertBss b l ↔ x = b ∨ x ∈ l := by
  induction l with
  | nil => simp [insertBss]
  | cons c rest ih =>
    rw [insertBss]
    by_cases hle : b.bssid ≤ c.bssid
    · rw [if_pos hle]
      simp
    · rw [if_neg hle]
      simp only [List.mem_cons, ih]
      tauto

lemma mem_sort_ap {x : Bss} {l : List Bss} : x ∈ sort_ap l ↔ x ∈ l := by
  induction l with
  | nil => simp [sort_ap]
  | cons c rest ih =>
    show x ∈ insertBss c (sort_ap rest) ↔ _
    rw [mem_insertBss, ih]
    simp [eq_comm]

lemma map_eq_self_of {α : Type} {f : α → α} {l : List α}
    (h : ∀ x ∈ l, f x = x) : l.map f = l := by
  induction l with
  | nil => rfl
  | cons a l ih =>
    rw [List.map_cons, h a (List.mem_cons_self a l),
      ih (fun x hx => h x (List.mem_cons_of_mem a hx))]

lemma markPresent_eq_map {key : String} {l : List Bss}
    (hnodup : (l.map (fun b => b.bssid)).Nodup) :
    markPresent key l
      = l.map (fun b => if b.bssid = key then { b with present := true } else b) := by
  induction l with
  | nil => rfl
  | cons b rest ih =>
    rw [List.map_cons, List.nodup_cons] at hnodup
    rw [markPresent, List.map_cons]
    by_cases hb : b.bssid = key
    · rw [if_pos hb, if_pos hb]
      congr 1
      refine (map_eq_self_of ?_).symm
      intro x hx
      rw [if_neg ?_]
      intro hxk
      have hmm : x.bssid ∈ rest.map (fun b => b.bssid) := List.mem_map_of_mem _ hx
      rw [hxk, ← hb] at hmm
      exact hnodup.1 hmm
    · rw [if_neg hb, if_neg hb, ih hnodup.2]

lemma markPresent_keys (key : String) (l : List Bss) :
    (markPresent key l).map (fun b => b.bssid) = l.map (fun b => b.bssid) := by
  induction l with
  | nil => rfl
  | cons b rest ih =>
    rw [markPresent]
    by_cases hb : b.bssid = key
    · rw [if_pos hb]
      rfl
    · rw [if_neg hb, List.map_cons, List.map_cons, ih]

lemma processScanLines_cmds (l : List Bss) (lines : List String) :
    (processScanLines l lines).2 = (listedKeys lines).map (fun k => "BSS " ++ k) := by
  induction lines generalizing l with
  | nil => rfl
  | cons line rest ih =>
    rw [processScanLines, listedKeys, List.filter_cons]
    by_cases hh : isHeaderLine line
    · rw [if_pos hh]
      simp only [hh, Bool.not_true, ite_false]
      exact ih l
    · have hh2 : isHeaderLine line = false := Bool.of_not_eq_true hh
      rw [if_neg hh]
      simp only [hh2, Bool.not_false, ite_true, List.map_cons]
      rw [show (processScanLines (markPresent (firstTok line) l) rest).2
          = (listedKeys rest).map (fun k => "BSS " ++ k) from ih _]
      rfl

lemma processScanLines_table {l : List Bss} (lines : List String)
    (hnodup : (l.map (fun b => b.bssid)).Nodup) :
    (processScanLines l lines).1
      = l.map (fun b =>
          if b.bssid ∈ listedKeys lines then { b with present := true } else b) := by
  induction lines generalizing l with
  | nil =>
    refine (map_eq_self_of ?_).symm
    intro x hx
    rw [if_neg (by simp [listedKeys])]
  | cons line rest ih =>
    rw [processScanLines]
    by_cases hh : isHeaderLine line
    · rw [if_pos hh]
      rw [ih hnodup]
      have hkeys : listedKeys (line :: rest) = listedKeys rest := by
        rw [listedKeys, listedKeys, List.filter_cons]
        rw [if_neg (by simp [hh])]
      rw [hkeys]
    · have hh2 : isHeaderLine line = false := Bool.of_not_eq_true hh
      rw [if_neg hh]
      have hnodup2 : ((markPresent (firstTok line) l).map (fun b => b.bssid)).Nodup := by
        rw [markPresent_keys]
        exact hnodup
      show (processScanLines (markPresent (firstTok line) l) rest).1 = _
      rw [ih hnodup2, markPresent_eq_map hnodup, List.map_map]
      have hkeys : listedKeys (line :: rest) = firstTok line :: listedKeys rest := by
        rw [listedKeys, listedKeys, List.filter_cons]
        rw [if_pos (by simp [hh2]), List.map_cons]
      rw [hkeys]
      apply List.map_congr_left
      intro b hb
      simp only [Function.comp]
      by_cases h1 : b.bssid = firstTok line
      · rw [if_pos h1, if_pos (show b.bssid ∈ firstTok line :: listedKeys rest from by
          rw [h1]; exact List.mem_cons_self _ _)]
        by_cases h2 : ({ b with present := true } : Bss).bssid ∈ listedKeys rest
        · rw [if_pos h2]
        · rw [if_neg h2]
      · rw [if_neg h1]
        by_cases h2 : b.bssid ∈ listedKeys rest
        · rw [if_pos h2, if_pos (List.mem_cons_of_mem _ h2)]
        · rw [if_neg h2, if_neg (by
            intro hmem
            rcases List.mem_cons.1 hmem with h | h
            · exact h1 h
            · exact h2 h)]

lemma mem_sweepAbsent_fst {iface : String} {l : List Bss} {b : Bss} :
    b ∈ (sweepAbsent iface l).1 ↔ b ∈ l ∧ b.present = true := by
  induction l with
  | nil => simp [sweepAbsent]
  | cons c rest ih =>
    rw [sweepAbsent]
    by_cases hc : c.present
    · rw [if_pos hc]
      simp only [List.mem_cons, ih]
      constructor
      · rintro (rfl | ⟨hb, hp⟩)
        · exact ⟨Or.inl rfl, hc⟩
        · exact ⟨Or.inr hb, hp⟩
      · rintro ⟨rfl | hb, hp⟩
        · exact Or.inl rfl
        · exact Or.inr ⟨hb, hp⟩
    · rw [if_neg hc]
      simp only [ih, List.mem_cons]
      constructor
      · rintro ⟨hb, hp⟩
        exact ⟨Or.inr hb, hp⟩
      · rintro ⟨rfl | hb, hp⟩
        · exact absurd hp hc
        · exact ⟨hb, hp⟩

lemma sweepAbsent_pubs {iface : String} {l : List Bss} {b : Bss}
    (hb : b ∈ l) (hp : b.present = false) :
    ∀ t ∈ hideTopics iface b.bssid, t ∈ (sweepAbsent iface l).2 := by
  induction l with
  | nil => exact absurd hb (List.not_mem_nil b)
  | cons c rest ih =>
    intro t ht
    rw [sweepAbsent]
    rcases List.mem_cons.1 hb with rfl | hb2
    · rw [if_neg (by simp [hp])]
      exact List.mem_append_left _ ht
    · by_cases hc : c.present
      · rw [if_pos hc]
        exact ih hb2 t ht
      · rw [if_neg hc]
        exact List.mem_append_right _ (ih hb2 t ht)

lemma clearPresent_keys (l : List Bss) :
    (clearPresent l).map (fun b => b.bssid) = l.map (fun b => b.bssid) := by
  rw [clearPresent, List.map_map]
  rfl

/-- C8 counterexample: with an empty BSS table, a `SCAN_RESULTS` response
listing one BSSID leaves the table empty (the listed BSSID is only queried
with `BSS <bssid>`; it is inserted only when that later response arrives),
so the set of keys does not equal the set of listed BSSIDs. -/
theorem scan_results_counterexample :
    (scan_results "wlan0" [] ["00:11:22:33:44:55\t2437\t-55\t[WPA2]\thome"]).1 = []
    ∧ "00:11:22:33:44:55"
        ∈ listedKeys ["00:11:22:33:44:55\t2437\t-55\t[WPA2]\thome"]
    ∧ ("BSS 00:11:22:33:44:55")
        ∈ (scan_results "wlan0" [] ["00:11:22:33:44:55\t2437\t-55\t[WPA2]\thome"]).2.1 := by
  refine ⟨rfl, by decide, by decide⟩

/-- C8 (amended): after processing a `SCAN_RESULTS` response, the set of
BSSID keys in the table equals the intersection of the previous keys with
the BSSIDs listed in the response — every entry absent from the listing is
removed and its four bss topics are cleared, while listed BSSIDs not yet in
the table are only queried with a `BSS <bssid>` command (issued for every
listed BSSID) and enter the table when that response arrives (or via
BSS-ADDED events). -/
theorem scan_results_reconciliation (iface : String) (bsss : List Bss)
    (lines : List String)
    (hnodup : (bsss.map (fun b => b.bssid)).Nodup) :
    (∀ k, k ∈ (scan_results iface bsss lines).1.map (fun b => b.bssid)
        ↔ (k ∈ bsss.map (fun b => b.bssid) ∧ k ∈ listedKeys lines))
    ∧ (∀ b ∈ bsss, b.bssid ∉ listedKeys lines →
        ∀ t ∈ hideTopics iface b.bssid, t ∈ (scan_results iface bsss lines).2.2)
    ∧ (∀ k ∈ listedKeys lines, ("BSS " ++ k) ∈ (scan_results iface bsss lines).2.1) := by
  have hmarked : (processScanLines (clearPresent bsss) lines).1
      = bsss.map (fun b =>
          if b.bssid ∈ listedKeys lines then { b with present := true }
          else { b with present := false }) := by
    rw [processScanLines_table lines (by rw [clearPresent_keys]; exact hnodup)]
    rw [clearPresent, List.map_map]
    apply List.map_congr_left
    intro b hb
    rfl
  refine ⟨?_, ?_, ?_⟩
  · intro k
    show k ∈ (sort_ap (sweepAbsent iface
        (processScanLines (clearPresent bsss) lines).1).1).map (fun b => b.bssid) ↔ _
    constructor
    · intro hk
      obtain ⟨b, hb, rfl⟩ := List.mem_map.1 hk
      rw [mem_sort_ap] at hb
      obtain ⟨hbm, hbp⟩ := mem_sweepAbsent_fst.1 hb
      rw [hmarked] at hbm
      obtain ⟨orig, ho, rfl⟩ := List.mem_map.1 hbm
      by_cases h : orig.bssid ∈ listedKeys lines
      · have heq : (if orig.bssid ∈ listedKeys lines
            then ({ orig with present := true } : Bss)
            else { orig with present := false }) = { orig with present := true } :=
          if_pos h
        rw [heq]
        exact ⟨List.mem_map.2 ⟨orig, ho, rfl⟩, h⟩
      · have heq : (if orig.bssid ∈ listedKeys lines
            then ({ orig with present := true } : Bss)
            else { orig with present := false }) = { orig with present := false } :=
          if_neg h
        rw [heq] at hbp
        exact absurd hbp (by simp)
    · rintro ⟨hk1, hk2⟩
      obtain ⟨orig, ho, rfl⟩ := List.mem_map.1 hk1
      apply List.mem_map.2
      refine ⟨{ orig with present := true }, ?_, rfl⟩
      rw [mem_sort_ap]
      apply mem_sweepAbsent_fst.2
      refine ⟨?_, rfl⟩
      rw [hmarked]
      exact List.mem_map.2 ⟨orig, ho, if_pos hk2⟩
  · intro b hb hnot t ht
    show t ∈ (sweepAbsent iface (processScanLines (clearPresent bsss) lines).1).2
    have hmem : ({ b with present := false } : Bss)
        ∈ (processScanLines (clearPresent bsss) lines).1 := by
      rw [hmarked]
      exact List.mem_map.2 ⟨b, hb, if_neg hnot⟩
    exact sweepAbsent_pubs hmem rfl t ht
  · intro k hk
    show ("BSS " ++ k) ∈ (processScanLines (clearPresent bsss) lines).2
    rw [processScanLines_cmds]
    exact List.mem_map.2 ⟨k, hk, rfl⟩

/-- Witness for C8 (amended): a two-entry table where only `00:aa` is listed
again; `00:aa` stays, `00:bb` is dropped and its `freq` topic cleared. -/
theorem scan_results_reconciliation_witness :
    ("00:aa" ∈ (scan_results "wlan0"
        [⟨"00:aa", some "home", 2437, -55, true, false, false, false, false, false⟩,
         ⟨"00:bb", some "guest", 2462, -70, false, false, false, false, false, false⟩]
        ["00:aa\t2437\t-55\t[WPA2]\thome"]).1.map (fun b => b.bssid))
    ∧ ("net/wlan0/bss/00:bb/freq", "") ∈ (scan_results "wlan0"
        [⟨"00:aa", some "home", 2437, -55, true, false, false, false, false, false⟩,
         ⟨"00:bb", some "guest", 2462, -70, false, false, false, false, false, false⟩]
        ["00:aa\t2437\t-55\t[WPA2]\thome"]).2.2 := by
  constructor
  · exact ((scan_results_reconciliation "wlan0"
      [⟨"00:aa", some "home", 2437, -55, true, false, false, false, false, false⟩,
       ⟨"00:bb", some "guest", 2462, -70, false, false, false, false, false, false⟩]
      ["00:aa\t2437\t-55\t[WPA2]\thome"] (by decide)).1 "00:aa").2
      ⟨by decide, by decide⟩
  · exact (scan_results_reconciliation "wlan0"
      [⟨"00:aa", some "home", 2437, -55, true, false, false, false, false, false⟩,
       ⟨"00:bb", some "guest", 2462, -70, false, false, false, false, false, false⟩]
      ["00:aa\t2437\t-55\t[WPA2]\thome"] (by decide)).2.1
      ⟨"00:bb", some "guest", 2462, -70, false, false, false, false, false, false⟩
      (by decide) (by decide) ("net/wlan0/bss/00:bb/freq", "") (by decide)
